import Mathlib

/-!
Verification of the likit data-import library (src/misc.py, src/wxprofilers/rrs.py)
against its natural-language specification.

The Python functions are shallowly embedded as executable Lean definitions:
* dataframes become lists of rows/columns,
* IEEE floats become `PFloat` (a rational tagged with NaN / ±infinity),
* file contents become lists of lines (each line a `List Char`),
* fallible operations (Python exceptions) return `Option`.

External library calls (the statsmodels OLS solver together with the
trigonometric evaluation of the design matrix) are kept opaque: the embedding
is parametrised over them, and every theorem about the surrounding repository
code is proved for an arbitrary solver.
-/

/-! ## A model of Python/NumPy floating point values

Only the properties the code under verification uses are modelled: NaN-ness,
finiteness, negation and ordering (comparisons involving NaN are false,
following IEEE-754, which is what NumPy implements). -/

inductive PFloat where
  | num (q : ℚ)
  | nan
  | inf
  | ninf
deriving DecidableEq

namespace PFloat

/-- `np.isnan`. -/
def isNaN : PFloat → Bool
  | nan => true
  | _ => false

/-- `np.isfinite`: false for NaN and both infinities. -/
def isFinite : PFloat → Bool
  | num _ => true
  | _ => false

/-- Unary negation (`-x`): NaN stays NaN, infinities swap sign. -/
def neg : PFloat → PFloat
  | num q => num (-q)
  | nan => nan
  | inf => ninf
  | ninf => inf

/-- IEEE `>` comparison: every comparison involving NaN is false. -/
def gt : PFloat → PFloat → Bool
  | num a, num b => decide (b < a)
  | inf, num _ => true
  | inf, ninf => true
  | num _, ninf => true
  | _, _ => false

@[simp] theorem isNaN_neg (x : PFloat) : x.neg.isNaN = x.isNaN := by
  cases x <;> rfl

end PFloat

/-! ## `wind_regression` (src/misc.py, lines 200-243)

A wind dataframe `wdf` is modelled by the list `los` of LOS IDs of its rows
(`wdf.index.get_level_values('LOS ID')`) and the list of its columns (one
column per range bin), each a list of `PFloat` measurements aligned with
`los`.

The per-row azimuth/elevation angles (in degrees) are computed by the
repository code itself: azimuth is `90 * LOS ID` and elevation is the
literal 75 (90 for LOS ID 4) - the `elevation` argument of the Python
function is never used.  The design matrix of the regression is the image of
these angle pairs under fixed trigonometric functions, and the fit is
produced by the external `sm.OLS(..., missing='drop')` solver; both are
folded into the opaque solver parameter `ols`, which receives the angle
pairs and the (negated) measurement column. -/

/-- Result of the external OLS solver: three fitted parameters
(`results.params`) and their standard errors (`results.bse`). -/
structure OLS3 where
  px : PFloat
  py : PFloat
  pz : PFloat
  sx : PFloat
  sy : PFloat
  sz : PFloat
deriving DecidableEq

/-- The opaque external solver: from per-row (azimuth, elevation) angle pairs
in degrees and the per-row dependent values to an OLS fit. -/
abbrev OLSFun := List (ℚ × ℚ) → List PFloat → OLS3

/-- One row of the `wind_regression` result dataframe:
columns `x, y, z, xse, yse, zse`. -/
structure WRRow where
  x : PFloat
  y : PFloat
  z : PFloat
  xse : PFloat
  yse : PFloat
  zse : PFloat
deriving DecidableEq

/-- Azimuth in degrees: `az = los * np.pi / 2` (line 204). -/
def azDeg (los : ℤ) : ℚ := 90 * los

/-- Elevation in degrees: `el = np.repeat(np.pi * 75 / 180, len(los))` with
`el[los == 4] = np.pi / 2` (lines 205-206).  The literal 75 is used; the
`elevation` parameter of `wind_regression` does not appear. -/
def elDeg (los : ℤ) : ℚ := if los = 4 then 90 else 75

/-- The geometric degeneracy test of lines 226-227:
`(0 not in uniq_los and 2 not in uniq_los) or
 (1 not in uniq_los and 3 not in uniq_los)`. -/
def losDegenerate (uniq : List ℤ) : Bool :=
  (!(uniq.contains 0) && !(uniq.contains 2)) ||
  (!(uniq.contains 1) && !(uniq.contains 3))

/-- The LOS IDs of the rows whose (negated) measurement is not NaN, with
duplicates removed: `los[notnan].unique()` (lines 220-221). -/
def uniqLos (los : List ℤ) (ymat : List PFloat) : List ℤ :=
  (((los.zip ymat).filter (fun p => !(p.2.isNaN))).map Prod.fst).dedup

/-- The body of the `for n in range(ncols)` loop of lines 216-241 for one
column: `none` models a skipped column (the `continue` statements of
lines 224 and 228, leaving the result row unset / all-NaN); otherwise the
fitted row with the standard-error gate of line 239 applied to the
coefficients and the raw standard errors kept (line 240). -/
def windRegressionCol (ols : OLSFun) (los : List ℤ) (maxSe : PFloat)
    (col : List PFloat) : Option WRRow :=
  let ymat := col.map PFloat.neg
  let uniq := uniqLos los ymat
  if uniq.length < 3 then none
  else if uniq.length = 3 && losDegenerate uniq then none
  else
    let r := ols (los.map fun l => (azDeg l, elDeg l)) ymat
    let gate := fun (c s : PFloat) =>
      if s.gt maxSe || !(s.isFinite) then PFloat.nan else c
    some ⟨gate r.px r.sx, gate r.py r.sy, gate r.pz r.sz, r.sx, r.sy, r.sz⟩

set_option linter.unusedVariables false in
/-- `wind_regression(wdf, elevation, max_se)`: one (possibly unset) result
row per column of `wdf`.  The `elevation` argument is accepted, as in the
Python signature, but (exactly as in the source) never used. -/
def wind_regression (ols : OLSFun) (los : List ℤ) (cols : List (List PFloat))
    (elevation : ℚ) (maxSe : PFloat) : List (Option WRRow) :=
  cols.map (windRegressionCol ols los maxSe)

/-- A sample external solver used to witness the `wind_regression` theorems
on concrete inputs. -/
def olsW : OLSFun := fun _ _ => ⟨.num 1, .num 2, .num 3, .num 0, .num 5, .inf⟩

/-- Claim-side notion: the LOS IDs of the rows whose measurement in the
given column is not NaN. -/
def presentLos (los : List ℤ) (c : List PFloat) : List ℤ :=
  ((los.zip c).filter (fun p => !(p.2.isNaN))).map Prod.fst

/-- Claim-side skip condition of C1: fewer than three distinct LOS IDs among
the non-NaN measurements, or exactly three forming a geometrically
degenerate set (both LOS 0 and LOS 2 absent, or both LOS 1 and LOS 3
absent). -/
def WindSkipClaim (los : List ℤ) (c : List PFloat) : Prop :=
  (presentLos los c).toFinset.card < 3 ∨
    ((presentLos los c).toFinset.card = 3 ∧
      ((0 ∉ (presentLos los c).toFinset ∧ 2 ∉ (presentLos los c).toFinset) ∨
       (1 ∉ (presentLos los c).toFinset ∧ 3 ∉ (presentLos los c).toFinset)))

/-- Negating the measurements (line 217) does not change which rows count as
NaN, hence not the LOS IDs available for the fit. -/
theorem presentLos_map_neg (los : List ℤ) (c : List PFloat) :
    ((los.zip (c.map PFloat.neg)).filter (fun p => !(p.2.isNaN))).map Prod.fst =
      presentLos los c := by
  unfold presentLos
  induction los generalizing c with
  | nil => simp
  | cons a as ih =>
    cases c with
    | nil => simp
    | cons b bs =>
      by_cases hb : b.isNaN <;>
        simp [hb, PFloat.isNaN_neg, ih]

/-- The Boolean degeneracy test read as a proposition. -/
theorem losDegenerate_iff (uniq : List ℤ) :
    losDegenerate uniq = true ↔
      ((0 ∉ uniq ∧ 2 ∉ uniq) ∨ (1 ∉ uniq ∧ 3 ∉ uniq)) := by
  simp [losDegenerate, List.contains]

/-- The column loop body leaves a column unset exactly when the uniqued LOS
list is too short or degenerate (lines 223-228). -/
theorem windRegressionCol_eq_none (ols : OLSFun) (los : List ℤ) (s : PFloat)
    (c : List PFloat) :
    windRegressionCol ols los s c = none ↔
      ((uniqLos los (c.map PFloat.neg)).length < 3 ∨
        ((uniqLos los (c.map PFloat.neg)).length = 3 ∧
          losDegenerate (uniqLos los (c.map PFloat.neg)) = true)) := by
  simp only [windRegressionCol]
  split_ifs with h1 h2
  · simp only [true_iff]
    exact Or.inl h1
  · simp only [Bool.and_eq_true, decide_eq_true_eq] at h2
    simp only [true_iff]
    exact Or.inr ⟨h2.1, h2.2⟩
  · simp only [Bool.and_eq_true, decide_eq_true_eq, not_and] at h2
    simp only [reduceCtorEq, false_iff]
    rintro (h | ⟨h3, hdeg⟩)
    · exact h1 h
    · exact absurd hdeg (by simpa using h2 h3)

/-- C1: a range bin of `wind_regression` is left undefined exactly when the
non-NaN measurements of that column come from fewer than three distinct
LOS IDs, or from exactly three distinct LOS IDs missing both of LOS 0 and
LOS 2 or both of LOS 1 and LOS 3; otherwise an OLS fit is computed. -/
theorem wind_regression_skips_iff (ols : OLSFun) (los : List ℤ)
    (cols : List (List PFloat)) (e : ℚ) (s : PFloat) (n : ℕ) (c : List PFloat)
    (hc : cols[n]? = some c) :
    ((wind_regression ols los cols e s)[n]? = some none ↔
      WindSkipClaim los c) := by
  have hres : (wind_regression ols los cols e s)[n]? =
      some (windRegressionCol ols los s c) := by
    simp [wind_regression, List.getElem?_map, hc]
  rw [hres, Option.some_inj, windRegressionCol_eq_none]
  have huniq : uniqLos los (c.map PFloat.neg) = (presentLos los c).dedup := by
    unfold uniqLos
    rw [presentLos_map_neg]
  have hcard : (presentLos los c).toFinset.card =
      (presentLos los c).dedup.length := List.card_toFinset _
  have hmem : ∀ k : ℤ,
      k ∈ (presentLos los c).toFinset ↔ k ∈ (presentLos los c).dedup := by
    intro k
    rw [List.mem_toFinset, List.mem_dedup]
  unfold WindSkipClaim
  constructor
  · rintro (h | ⟨h3, hdeg⟩)
    · exact Or.inl (by rw [hcard, ← huniq]; exact h)
    · refine Or.inr ⟨by rw [hcard, ← huniq]; exact h3, ?_⟩
      rw [losDegenerate_iff, huniq] at hdeg
      simpa [hmem] using hdeg
  · rintro (h | ⟨h3, hdeg⟩)
    · exact Or.inl (by rw [huniq, ← hcard]; exact h)
    · refine Or.inr ⟨by rw [huniq, ← hcard]; exact h3, ?_⟩
      rw [losDegenerate_iff, huniq]
      simpa [hmem] using hdeg

/-- Witness for C1 at a concrete input: a column whose non-NaN measurements
come from the two LOS IDs 0 and 1, which is skipped. -/
theorem wind_regression_skips_iff_witness :
    (([[PFloat.num 1, PFloat.num 2]] : List (List PFloat))[0]? =
        some [PFloat.num 1, PFloat.num 2]) ∧
    ((wind_regression olsW [0, 1] [[PFloat.num 1, PFloat.num 2]] 0
        (.num 1))[0]? = some none ↔
      WindSkipClaim [0, 1] [PFloat.num 1, PFloat.num 2]) :=
  ⟨rfl, wind_regression_skips_iff olsW [0, 1] [[PFloat.num 1, PFloat.num 2]]
    0 (.num 1) 0 [PFloat.num 1, PFloat.num 2] rfl⟩

/-- C2: for a range bin for which a fit is computed, each coefficient whose
standard error exceeds `max_se` or is not finite is replaced by NaN, while
the returned standard-error columns keep the unmodified standard errors;
a coefficient with finite standard error not exceeding `max_se` is returned
as fitted. -/
theorem wind_regression_se_gate (ols : OLSFun) (los : List ℤ)
    (cols : List (List PFloat)) (e : ℚ) (s : PFloat) (n : ℕ) (c : List PFloat)
    (row : WRRow) (hc : cols[n]? = some c)
    (h : (wind_regression ols los cols e s)[n]? = some (some row)) :
    (let r := ols (los.map fun l => (azDeg l, elDeg l)) (c.map PFloat.neg)
     (row.x = if r.sx.gt s || !(r.sx.isFinite) then PFloat.nan else r.px) ∧
     (row.y = if r.sy.gt s || !(r.sy.isFinite) then PFloat.nan else r.py) ∧
     (row.z = if r.sz.gt s || !(r.sz.isFinite) then PFloat.nan else r.pz) ∧
     row.xse = r.sx ∧ row.yse = r.sy ∧ row.zse = r.sz) := by
  intro r
  have hres : (wind_regression ols los cols e s)[n]? =
      some (windRegressionCol ols los s c) := by
    simp [wind_regression, List.getElem?_map, hc]
  rw [hres, Option.some_inj] at h
  simp only [windRegressionCol] at h
  by_cases h1 : (uniqLos los (c.map PFloat.neg)).length < 3
  · rw [if_pos h1] at h
    simp at h
  · rw [if_neg h1] at h
    by_cases h2 : (decide ((uniqLos los (c.map PFloat.neg)).length = 3) &&
        losDegenerate (uniqLos los (c.map PFloat.neg))) = true
    · rw [if_pos h2] at h
      simp at h
    · rw [if_neg h2] at h
      have hrow := (Option.some_inj.mp h).symm
      rw [hrow]
      exact ⟨rfl, rfl, rfl, rfl, rfl, rfl⟩

/-- Witness for C2 at a concrete input: with `olsW` the y standard error 5
exceeds `max_se = 1` and the z standard error is infinite, so y and z are
NaN while x survives and all three standard errors are returned intact. -/
theorem wind_regression_se_gate_witness :
    (([[PFloat.num 1, PFloat.num 2, PFloat.num 1, PFloat.num 4]] :
        List (List PFloat))[0]? =
      some [PFloat.num 1, PFloat.num 2, PFloat.num 1, PFloat.num 4]) ∧
    ((wind_regression olsW [0, 1, 2, 3]
        [[PFloat.num 1, PFloat.num 2, PFloat.num 1, PFloat.num 4]] 0
        (.num 1))[0]? =
      some (some ⟨.num 1, .nan, .nan, .num 0, .num 5, .inf⟩)) ∧
    (let r := olsW ([0, 1, 2, 3].map fun l => (azDeg l, elDeg l))
        ([PFloat.num 1, PFloat.num 2, PFloat.num 1, PFloat.num 4].map
          PFloat.neg)
     ((⟨.num 1, .nan, .nan, .num 0, .num 5, .inf⟩ : WRRow).x =
        if r.sx.gt (.num 1) || !(r.sx.isFinite) then PFloat.nan else r.px) ∧
     ((⟨.num 1, .nan, .nan, .num 0, .num 5, .inf⟩ : WRRow).y =
        if r.sy.gt (.num 1) || !(r.sy.isFinite) then PFloat.nan else r.py) ∧
     ((⟨.num 1, .nan, .nan, .num 0, .num 5, .inf⟩ : WRRow).z =
        if r.sz.gt (.num 1) || !(r.sz.isFinite) then PFloat.nan else r.pz) ∧
     (⟨.num 1, .nan, .nan, .num 0, .num 5, .inf⟩ : WRRow).xse = r.sx ∧
     (⟨.num 1, .nan, .nan, .num 0, .num 5, .inf⟩ : WRRow).yse = r.sy ∧
     (⟨.num 1, .nan, .nan, .num 0, .num 5, .inf⟩ : WRRow).zse = r.sz) :=
  ⟨rfl, by decide,
    wind_regression_se_gate olsW [0, 1, 2, 3]
      [[PFloat.num 1, PFloat.num 2, PFloat.num 1, PFloat.num 4]] 0 (.num 1) 0
      [PFloat.num 1, PFloat.num 2, PFloat.num 1, PFloat.num 4]
      ⟨.num 1, .nan, .nan, .num 0, .num 5, .inf⟩ rfl (by decide)⟩

/-- C5: the `elevation` argument of `wind_regression` has no effect on the
result - the elevation used in the design matrix comes from the literal 75
(90 for LOS ID 4), not from the parameter. -/
theorem wind_regression_elevation_unused (ols : OLSFun) (los : List ℤ)
    (cols : List (List PFloat)) (e1 e2 : ℚ) (s : PFloat) :
    wind_regression ols los cols e1 s = wind_regression ols los cols e2 s :=
  rfl

/-! ## `weather_balloon` timestamp reconstruction (src/misc.py, lines 313-325)

A data row contributes a pair `(t, e)`: `t` the raw timestamp as seconds
since midnight of the flight date (every raw timestamp carries the same
date, line 314, and a time-of-day parsed with `%H:%M:%S`, so `0 ≤ t <
86400`), and `e` the elapsed-time value of the row. -/

/-- Exact rational subtraction written through `mkRat` (the library
subtraction on `ℚ` is irreducible and would block concrete evaluation). -/
def ratSub (a b : ℚ) : ℚ :=
  mkRat (a.num * (b.den : ℤ) - b.num * (a.den : ℤ)) (a.den * b.den)

theorem ratSub_eq_sub (a b : ℚ) : ratSub a b = a - b := by
  have ha : ((a.den : ℚ)) ≠ 0 := by
    exact_mod_cast a.den_nz
  have hb : ((b.den : ℚ)) ≠ 0 := by
    exact_mod_cast b.den_nz
  unfold ratSub
  rw [Rat.mkRat_eq_div]
  conv_rhs => rw [← Rat.num_div_den a, ← Rat.num_div_den b]
  rw [div_sub_div _ _ ha hb]
  push_cast
  ring_nf

/-- The day-rollover flags of lines 318-320: flag `i` is true when the raw
timestamp decreases from row `i` to row `i+1`
(`(ts[1:] - ts[:-1]).astype(float) < 0`) while the elapsed time does not
decrease (`et[1:] - et[:-1] >= 0`). -/
def dayFlags (rows : List (ℤ × ℚ)) : List Bool :=
  List.zipWith (fun p q => decide (q.1 - p.1 < 0) && decide (ratSub q.2 p.2 ≥ 0))
    rows rows.tail

/-- `np.insert(np.cumsum(np.logical_and(...)), 0, 0)` (lines 320-321):
the cumulative number of detected day rollovers before each row. -/
def daysAhead (rows : List (ℤ × ℚ)) : List ℕ :=
  (dayFlags rows).scanl (fun a f => a + if f then 1 else 0) 0

/-- Lines 322-323: each raw timestamp is advanced by its cumulative number
of days (`pd.to_timedelta(days_ahead, unit='D')`, one day = 86400 s). -/
def correctedTimes (rows : List (ℤ × ℚ)) : List ℤ :=
  List.zipWith (fun (p : ℤ × ℚ) (d : ℕ) => p.1 + 86400 * (d : ℤ)) rows
    (daysAhead rows)

/-! ## Character-list utilities

File contents are modelled as lists of lines, each line a `List Char` (the
line terminator included, as with Python `readlines()`).  All text
processing is implemented by structural recursion on `List Char` so that
concrete instances evaluate inside the kernel. -/

/-- Python `str.split(sep)` for a one-character separator (also the comma /
semicolon field splitting performed by the CSV readers). -/
def splitChar (sep : Char) : List Char → List (List Char)
  | [] => [[]]
  | c :: cs =>
    if c = sep then [] :: splitChar sep cs
    else
      match splitChar sep cs with
      | [] => [[c]]
      | h :: t => (c :: h) :: t

/-- The whitespace characters stripped by Python `str.strip()` (the common
ones; the exotic ones do not occur in the modelled files). -/
def isWS (c : Char) : Bool :=
  c = ' ' || c = '\t' || c = '\r' || c = '\n'

/-- Python `str.strip()`. -/
def trimChars (l : List Char) : List Char :=
  ((l.dropWhile isWS).reverse.dropWhile isWS).reverse

/-- Remove the trailing line terminator of a raw line (what the CSV readers
do before splitting a line into fields). -/
def stripEol (l : List Char) : List Char :=
  (l.reverse.dropWhile (fun c => c = '\r' || c = '\n')).reverse

/-- The numeric value of a nonempty all-digit character list. -/
def digitsValAux (acc : ℕ) : List Char → Option ℕ
  | [] => some acc
  | c :: cs =>
    if c.isDigit then digitsValAux (10 * acc + (c.toNat - 48)) cs else none

/-- The numeric value of a nonempty all-digit character list. -/
def digitsVal : List Char → Option ℕ
  | [] => none
  | l => digitsValAux 0 l

/-- Python `int(s)`: surrounding whitespace and an optional sign are
accepted around a digit string. -/
def parsePyInt (l : List Char) : Option ℤ :=
  match trimChars l with
  | '-' :: ds => (digitsVal ds).map (fun n => -(n : ℤ))
  | '+' :: ds => (digitsVal ds).map (fun n => (n : ℤ))
  | ds => (digitsVal ds).map (fun n => (n : ℤ))

/-- Python `float(s)` restricted to plain decimal notation (optional sign,
digits, optional fractional part) - the notation occurring in the modelled
telemetry files; exponent/inf/nan spellings are not modelled and map to a
parse failure. -/
def parsePyFloat (l : List Char) : Option ℚ :=
  let signed : Bool × List Char :=
    match trimChars l with
    | '-' :: r => (true, r)
    | '+' :: r => (false, r)
    | r => (false, r)
  let core : Option ℚ :=
    match splitChar '.' signed.2 with
    | [a] => (digitsVal a).map (fun n => mkRat (n : ℤ) 1)
    | [a, b] =>
      if a.isEmpty && b.isEmpty then none
      else
        match (if a.isEmpty then some 0 else digitsVal a),
            (if b.isEmpty then some 0 else digitsVal b) with
        | some n, some f =>
          some (mkRat ((n * 10 ^ b.length + f : ℕ) : ℤ) (10 ^ b.length))
        | _, _ => none
    | _ => none
  core.map (fun q => if signed.1 then -q else q)

/-- Split off everything before and after the first occurrence of the
separator `sep1 :: sepRest` in a character list; `none` when the separator
does not occur. -/
def breakOnSep (sep1 : Char) (sepRest : List Char) : List Char →
    Option (List Char × List Char)
  | [] => none
  | c :: cs =>
    if c = sep1 ∧ sepRest.isPrefixOf cs then some ([], cs.drop sepRest.length)
    else
      match breakOnSep sep1 sepRest cs with
      | none => none
      | some (b, a) => some (c :: b, a)

/-- The remainder returned by `breakOnSep` is strictly shorter than the
input. -/
theorem breakOnSep_snd_length_lt (sep1 : Char) (sepRest : List Char) :
    ∀ l b a, breakOnSep sep1 sepRest l = some (b, a) →
      a.length < l.length := by
  intro l
  induction l with
  | nil => intro b a h; simp [breakOnSep] at h
  | cons c cs ih =>
    intro b a h
    simp only [breakOnSep] at h
    split at h
    · obtain ⟨hb, ha⟩ := Prod.mk.injEq .. ▸ Option.some_inj.mp h
      subst ha
      have := List.length_drop sepRest.length cs
      simp only [this, List.length_cons]
      omega
    · cases hin : breakOnSep sep1 sepRest cs with
      | none => rw [hin] at h; exact absurd h (by simp)
      | some pr =>
        obtain ⟨b2, a2⟩ := pr
        rw [hin] at h
        obtain ⟨hb, ha⟩ := Prod.mk.injEq .. ▸ Option.some_inj.mp h
        subst ha
        have := ih b2 a2 hin
        simp only [List.length_cons]
        omega

/-- Python `str.split(sep)` for a multi-character separator, by repeated
`breakOnSep`; the fuel argument (strictly more than the input length
suffices, since every `breakOnSep` step shortens the input) keeps the
recursion structural. -/
def splitOnSublistF : ℕ → List Char → List Char → List (List Char)
  | 0, _, l => [l]
  | _ + 1, [], l => [l]
  | fuel + 1, s0 :: srest, l =>
    match breakOnSep s0 srest l with
    | none => [l]
    | some (b, a) => b :: splitOnSublistF fuel (s0 :: srest) a

/-- Python `str.split(sep)` for a multi-character separator. -/
def splitOnSublist (sep l : List Char) : List (List Char) :=
  splitOnSublistF (l.length + 1) sep l

/-- Any two sufficient fuel values give the same split. -/
theorem splitOnSublistF_fuel (s0 : Char) (srest : List Char) :
    ∀ f1 f2 l, l.length < f1 → l.length < f2 →
      splitOnSublistF f1 (s0 :: srest) l = splitOnSublistF f2 (s0 :: srest) l := by
  intro f1
  induction f1 with
  | zero => intro f2 l h1; omega
  | succ g1 ih =>
    intro f2 l h1 h2
    cases f2 with
    | zero => omega
    | succ g2 =>
      simp only [splitOnSublistF]
      cases hbr : breakOnSep s0 srest l with
      | none => rfl
      | some pr =>
        obtain ⟨b, a⟩ := pr
        have hlen := breakOnSep_snd_length_lt s0 srest l b a hbr
        exact congrArg (b :: ·) (ih g2 a (by omega) (by omega))

/-! ## `weather_balloon` (src/misc.py, lines 290-346)

`fs` models the file system: a map from a path to the list of raw lines of
the file at that path (`open(...).readlines()`).  The function returns the
data portion of the produced dataset - the data-variable columns, the raw
data rows, the flight date text and the reconstructed timestamp column -
or `none` where the Python code would raise.  Calendar-date parsing
(`pd.to_datetime` on the date text) is not modelled; the flight date is
carried as text. -/

/-- The line `'\r\n'` terminating the metadata header (line 296). -/
def crlfLine : List Char := ['\r', '\n']

/-- The fixed path read for the data section (line 311). -/
def fixedBalloonPath : String := "../data/balloon/FLT_010117_0000_PROC.txt.TXT"

/-- One header line parsed as in lines 301-304: split at `' : '`, the key
is the whitespace-stripped part before the first separator, the value the
part between the first and second separator (`parts[1]`); `none` when the
separator is absent (Python raises `IndexError`). -/
def parseHeaderLine (line : List Char) : Option (List Char × List Char) :=
  match breakOnSep ' ' [':', ' '] line with
  | none => none
  | some (k, rest) =>
    match breakOnSep ' ' [':', ' '] rest with
    | none => some (trimChars k, rest)
    | some (v1, _) => some (trimChars k, v1)

/-- Claim-side reading of the same parse: the key is the stripped first
element of the full `' : '` split, the value its second element. -/
def parseHeaderLineSpec (line : List Char) : Option (List Char × List Char) :=
  match splitOnSublist [' ', ':', ' '] line with
  | p0 :: p1 :: _ => some (trimChars p0, p1)
  | _ => none

/-- Python dict lookup over insertion-ordered key/value pairs: the last
binding of a key wins. -/
def metaLookup (md : List (List Char × List Char)) (key : List Char) :
    Option (List Char) :=
  (md.reverse.find? (fun p => p.1 == key)).map Prod.snd

/-- The data portion of the dataset produced by `weather_balloon`. -/
structure BalloonData where
  bdate : List Char
  cols : List (List Char)
  rows : List (List (List Char))
  times : List ℤ
deriving DecidableEq

/-- A `%H:%M:%S` time-of-day parsed to seconds since midnight
(`pd.to_datetime(..., format='%Y-%m-%d %H:%M:%S')` on line 315 validates
the field ranges). -/
def parseHMS (l : List Char) : Option ℤ :=
  match (splitChar ':' l).mapM digitsVal with
  | some [h, m, s] =>
    if h < 24 ∧ m < 60 ∧ s < 60 then some ((3600 * h + 60 * m + s : ℕ) : ℤ)
    else none
  | _ => none

/-- Lines 305-325 after the header has been parsed: extract the flight
date from `metadata['Flight'].split(', ')[1]`, read the data rows from the
fixed-path file starting after `header_end + 1` lines, locate the
`Time Stamp` and `Elapsed Time` columns, and apply the day-rollover
correction to the parsed times-of-day. -/
def balloonFromHeader (he : ℕ) (md : List (List Char × List Char))
    (dataFile : List (List Char)) : Option BalloonData := do
  let flight ← metaLookup md ("Flight".data)
  let br1 ← breakOnSep ',' [' '] flight
  let br2 ← breakOnSep ',' [' '] br1.2
  let bdate := br2.1
  let dataLines := dataFile.drop (he + 1)
  let hdr ← dataLines.head?
  let cols := splitChar ';' (stripEol hdr)
  let body := (dataLines.tail).filter (fun l => !(stripEol l).isEmpty)
  let rows := body.map (fun l => splitChar ';' (stripEol l))
  let ti ← cols.findIdx? (fun c2 => c2 == ("Time Stamp".data))
  let ei ← cols.findIdx? (fun c2 => c2 == ("Elapsed Time".data))
  let tsRaw ← rows.mapM (fun r => (r[ti]?).bind parseHMS)
  let elaps ← rows.mapM (fun r => (r[ei]?).bind parsePyFloat)
  some ⟨bdate, cols, rows, correctedTimes (tsRaw.zip elaps)⟩

/-- `weather_balloon(fname)`: the metadata header is the block of lines of
`fname` before the first `'\r\n'` line (lines 296-304); the data section
is always read from `fixedBalloonPath` (line 311). -/
def weather_balloon (fs : String → List (List Char)) (fname : String) :
    Option BalloonData := do
  let lines := fs fname
  let he ← lines.findIdx? (fun l => l == crlfLine)
  let md ← ((lines.take he).map trimChars).mapM parseHeaderLine
  balloonFromHeader he md (fs fixedBalloonPath)

/-- `np.where(...)[0][0]` followed by the slice `lines[0:header_end]`
selects exactly the lines preceding the first line satisfying `p`. -/
theorem findIdx_take_eq_takeWhile {α : Type} (p : α → Bool) (lines : List α)
    (h : ∃ l ∈ lines, p l) :
    ∃ he, lines.findIdx? p = some he ∧
      lines.take he = lines.takeWhile (fun l => !(p l)) ∧
      he = (lines.takeWhile (fun l => !(p l))).length := by
  induction lines with
  | nil =>
    obtain ⟨l, hl, _⟩ := h
    simp at hl
  | cons a as ih =>
    by_cases hp : p a
    · exact ⟨0, by simp [List.findIdx?_cons, hp], by simp [hp], by simp [hp]⟩
    · have h2 : ∃ l ∈ as, p l := by
        obtain ⟨l, hl, hpl⟩ := h
        rcases List.mem_cons.mp hl with rfl | hl2
        · exact absurd hpl (by simp [hp])
        · exact ⟨l, hl2, hpl⟩
      obtain ⟨he, hfi, htk, hlen⟩ := ih h2
      refine ⟨he + 1, ?_, ?_, ?_⟩
      · simp [List.findIdx?_cons, hp, hfi]
      · simp [List.take_succ_cons, hp, htk]
      · simp [hp, hlen]

/-- One-step unfolding of `splitOnSublist` for a nonempty separator. -/
theorem splitOnSublist_cons (s0 : Char) (srest l : List Char) :
    splitOnSublist (s0 :: srest) l =
      match breakOnSep s0 srest l with
      | none => [l]
      | some (b, a) => b :: splitOnSublist (s0 :: srest) a := by
  cases hbr : breakOnSep s0 srest l with
  | none =>
    show splitOnSublistF (l.length + 1) (s0 :: srest) l = [l]
    simp only [splitOnSublistF, hbr]
  | some pr =>
    obtain ⟨b, a⟩ := pr
    have hlen := breakOnSep_snd_length_lt s0 srest l b a hbr
    show splitOnSublistF (l.length + 1) (s0 :: srest) l =
      b :: splitOnSublist (s0 :: srest) a
    simp only [splitOnSublistF, hbr]
    exact congrArg (b :: ·)
      (splitOnSublistF_fuel s0 srest l.length (a.length + 1) a (by omega)
        (by omega))

/-- The two-step `breakOnSep` parse of a header line agrees with the
claim-side full-split description. -/
theorem parseHeaderLine_eq_spec (line : List Char) :
    parseHeaderLine line = parseHeaderLineSpec line := by
  unfold parseHeaderLine parseHeaderLineSpec
  cases hbr : breakOnSep ' ' [':', ' '] line with
  | none =>
    rw [splitOnSublist_cons, hbr]
  | some pr =>
    obtain ⟨k, rest⟩ := pr
    rw [splitOnSublist_cons, hbr]
    dsimp only
    rw [splitOnSublist_cons]
    cases hbr2 : breakOnSep ' ' [':', ' '] rest with
    | none => rfl
    | some pr2 =>
      obtain ⟨v1, a2⟩ := pr2
      rfl

/-- C10: `weather_balloon` takes as metadata header exactly the lines
preceding the first line equal to `'\r\n'`, and parses each header line as
one key:value pair by splitting at `' : '` with the key
whitespace-stripped. -/
theorem weather_balloon_header_rule (lines : List (List Char))
    (h : crlfLine ∈ lines) :
    (∃ he, lines.findIdx? (fun l => l == crlfLine) = some he ∧
      lines.take he = lines.takeWhile (fun l => !(l == crlfLine))) ∧
    (∀ line, parseHeaderLine line = parseHeaderLineSpec line) := by
  obtain ⟨he, hfi, htk, _⟩ := findIdx_take_eq_takeWhile
    (fun l => l == crlfLine) lines ⟨crlfLine, h, by simp⟩
  exact ⟨⟨he, hfi, htk⟩, parseHeaderLine_eq_spec⟩

/-- Witness for C10 on a concrete three-line file whose second line is the
blank `'\r\n'` line. -/
theorem weather_balloon_header_rule_witness :
    (crlfLine ∈ ["Flight : A, 2017-01-01, 10:00:00\r\n".data, "\r\n".data,
      "junk\r\n".data]) ∧
    ((∃ he, (["Flight : A, 2017-01-01, 10:00:00\r\n".data, "\r\n".data,
        "junk\r\n".data] : List (List Char)).findIdx?
          (fun l => l == crlfLine) = some he ∧
      (["Flight : A, 2017-01-01, 10:00:00\r\n".data, "\r\n".data,
        "junk\r\n".data] : List (List Char)).take he =
        (["Flight : A, 2017-01-01, 10:00:00\r\n".data, "\r\n".data,
          "junk\r\n".data] : List (List Char)).takeWhile
            (fun l => !(l == crlfLine))) ∧
     (∀ line, parseHeaderLine line = parseHeaderLineSpec line)) :=
  ⟨by decide,
    weather_balloon_header_rule ["Flight : A, 2017-01-01, 10:00:00\r\n".data,
      "\r\n".data, "junk\r\n".data] (by decide)⟩

/-- C4: the data section is always read from the fixed path, so two input
files with identical metadata headers produce identical data portions. -/
theorem weather_balloon_fixed_data (fs : String → List (List Char))
    (f1 f2 : String)
    (h1 : crlfLine ∈ fs f1) (h2 : crlfLine ∈ fs f2)
    (hh : (fs f1).takeWhile (fun l => !(l == crlfLine)) =
          (fs f2).takeWhile (fun l => !(l == crlfLine))) :
    weather_balloon fs f1 = weather_balloon fs f2 := by
  obtain ⟨e1, hf1, ht1, hl1⟩ := findIdx_take_eq_takeWhile
    (fun l => l == crlfLine) (fs f1) ⟨crlfLine, h1, by simp⟩
  obtain ⟨e2, hf2, ht2, hl2⟩ := findIdx_take_eq_takeWhile
    (fun l => l == crlfLine) (fs f2) ⟨crlfLine, h2, by simp⟩
  have he : e1 = e2 := by rw [hl1, hl2, hh]
  subst he
  simp only [weather_balloon, bind, Option.bind]
  rw [hf1, hf2]
  dsimp only
  rw [ht1, ht2, hh]

/-- A concrete file system with two input files that share a header but
have different data sections, used to witness C4. -/
def balloonWitFs : String → List (List Char) := fun p =>
  if p == "a.txt" then
    ["Flight : A, 2017-01-01, 10:00:00\r\n".data, "\r\n".data,
     "AAA\r\n".data]
  else if p == "b.txt" then
    ["Flight : A, 2017-01-01, 10:00:00\r\n".data, "\r\n".data,
     "BBB\r\n".data]
  else
    ["x\r\n".data, "y\r\n".data,
     "Time Stamp;Elapsed Time\r\n".data,
     "01:00:00;1.0\r\n".data,
     "02:00:00;2.0\r\n".data]

/-- Witness for C4: the two concrete input files of `balloonWitFs` have the
same header and give the same result. -/
theorem weather_balloon_fixed_data_witness :
    crlfLine ∈ balloonWitFs "a.txt" ∧ crlfLine ∈ balloonWitFs "b.txt" ∧
    (balloonWitFs "a.txt").takeWhile (fun l => !(l == crlfLine)) =
      (balloonWitFs "b.txt").takeWhile (fun l => !(l == crlfLine)) ∧
    weather_balloon balloonWitFs "a.txt" = weather_balloon balloonWitFs "b.txt" :=
  ⟨by decide, by decide, by decide,
    weather_balloon_fixed_data balloonWitFs "a.txt" "b.txt" (by decide)
      (by decide) (by decide)⟩

/-- A concrete file system exhibiting the C3 counterexample: the input file
has a one-line header, and the fixed-path data file contains two rows whose
raw time-of-day decreases (10:00:00 to 09:00:00) while the elapsed time
also decreases (100.0 to 50.0), so no day-rollover is added. -/
def balloonCxFs : String → List (List Char) := fun p =>
  if p == fixedBalloonPath then
    ["x\r\n".data, "y\r\n".data,
     "Time Stamp;Elapsed Time\r\n".data,
     "10:00:00;100.0\r\n".data,
     "09:00:00;50.0\r\n".data]
  else
    ["Flight : A, 2017-01-01, 10:00:00\r\n".data, "\r\n".data]

/-- Counterexample to C3: `weather_balloon` accepts this telemetry input
and returns the timestamp column `[36000, 32400]` (seconds since the
flight date's midnight), which is strictly decreasing - the day-rollover
correction fires only when elapsed time does not decrease. -/
theorem weather_balloon_monotone_counterexample :
    (weather_balloon balloonCxFs "balloon.txt").map BalloonData.times =
        some [36000, 32400] ∧
    ¬ List.Chain' (· ≤ ·)
        ((weather_balloon balloonCxFs "balloon.txt").elim []
          BalloonData.times) := by
  constructor
  · rfl
  · intro hch
    have heval : (weather_balloon balloonCxFs "balloon.txt").elim []
        BalloonData.times = [(36000 : ℤ), 32400] := rfl
    rw [heval, List.chain'_cons] at hch
    have h1 := hch.1
    omega

/-- The correction step with an arbitrary starting day offset yields a
non-decreasing list, provided every raw timestamp lies in `[0, 86400)` and
the elapsed time does not decrease at any raw-timestamp decrease. -/
theorem correctedTimes_aux_chain (p : ℤ × ℚ) (rows : List (ℤ × ℚ)) :
    ∀ d0 : ℕ, (∀ r ∈ p :: rows, 0 ≤ r.1 ∧ r.1 < 86400) →
    List.Chain' (fun r w => w.1 < r.1 → r.2 ≤ w.2) (p :: rows) →
    List.Chain' (· ≤ ·)
      (List.zipWith (fun (r : ℤ × ℚ) (d : ℕ) => r.1 + 86400 * (d : ℤ))
        (p :: rows)
        ((dayFlags (p :: rows)).scanl (fun a f => a + if f then 1 else 0)
          d0)) := by
  induction rows generalizing p with
  | nil =>
    intro d0 _ _
    simp [dayFlags]
  | cons q rest ih =>
    intro d0 hb hg
    obtain ⟨hpq, hg2⟩ := List.chain'_cons.mp hg
    have hbp := hb p (by simp)
    have hbq := hb q (by simp)
    have hflag : dayFlags (p :: q :: rest) =
        (decide (q.1 - p.1 < 0) && decide (ratSub q.2 p.2 ≥ 0)) ::
          dayFlags (q :: rest) := rfl
    rw [hflag, List.scanl_cons, List.singleton_append,
      List.zipWith_cons_cons]
    have htail := ih q ((d0 + if (decide (q.1 - p.1 < 0) &&
        decide (ratSub q.2 p.2 ≥ 0)) then 1 else 0)) (fun r hr => hb r (by
          simp only [List.mem_cons] at hr ⊢
          tauto)) hg2
    refine List.chain'_cons'.mpr ⟨?_, htail⟩
    intro y hy
    have hhead : (List.zipWith
        (fun (r : ℤ × ℚ) (d : ℕ) => r.1 + 86400 * (d : ℤ)) (q :: rest)
        ((dayFlags (q :: rest)).scanl (fun a f => a + if f then 1 else 0)
          (d0 + if (decide (q.1 - p.1 < 0) && decide (ratSub q.2 p.2 ≥ 0))
            then 1 else 0))).head? =
        some (q.1 + 86400 * ((d0 + if (decide (q.1 - p.1 < 0) &&
          decide (ratSub q.2 p.2 ≥ 0)) then 1 else 0 : ℕ) : ℤ)) := by
      cases hfl : dayFlags (q :: rest) with
      | nil => rw [List.scanl_nil]; rfl
      | cons f fs =>
        rw [List.scanl_cons, List.singleton_append, List.zipWith_cons_cons]
        rfl
    rw [hhead, Option.mem_def, Option.some_inj] at hy
    subst hy
    by_cases hlt : q.1 < p.1
    · have helapsed : p.2 ≤ q.2 := hpq hlt
      have hflag2 : (decide (q.1 - p.1 < 0) && decide (ratSub q.2 p.2 ≥ 0)) =
          true := by
        simp only [Bool.and_eq_true, decide_eq_true_eq]
        constructor
        · omega
        · rw [ratSub_eq_sub]
          linarith
      rw [hflag2]
      simp only [if_pos]
      push_cast
      omega
    · by_cases hflag2 : (decide (q.1 - p.1 < 0) && decide (ratSub q.2 p.2 ≥ 0)) =
          true
      · rw [hflag2]
        simp only [if_pos]
        push_cast
        omega
      · rw [Bool.not_eq_true] at hflag2
        rw [hflag2]
        simp only [Bool.false_eq_true, if_false]
        omega

/-- Amended C3: the reconstructed timestamp column is monotonically
non-decreasing for every row list whose raw times-of-day lie in
`[0, 86400)` (as the `%H:%M:%S` parse guarantees) and in which the elapsed
time does not decrease at any raw-timestamp decrease. -/
theorem correctedTimes_monotone (rows : List (ℤ × ℚ))
    (hb : ∀ r ∈ rows, 0 ≤ r.1 ∧ r.1 < 86400)
    (hg : List.Chain' (fun r w => w.1 < r.1 → r.2 ≤ w.2) rows) :
    List.Chain' (· ≤ ·) (correctedTimes rows) := by
  cases rows with
  | nil => simp [correctedTimes, daysAhead, dayFlags]
  | cons p rest => exact correctedTimes_aux_chain p rest 0 hb hg

/-- Witness for the amended C3 on a concrete row list with a genuine day
rollover: raw times 23:00, 01:00, 02:00 with increasing elapsed time. -/
theorem correctedTimes_monotone_witness :
    (∀ r ∈ [((82800 : ℤ), (0 : ℚ)), (3600, 60), (7200, 120)],
      0 ≤ r.1 ∧ r.1 < 86400) ∧
    List.Chain' (fun (r w : ℤ × ℚ) => w.1 < r.1 → r.2 ≤ w.2)
      [((82800 : ℤ), (0 : ℚ)), (3600, 60), (7200, 120)] ∧
    List.Chain' (· ≤ ·)
      (correctedTimes [((82800 : ℤ), (0 : ℚ)), (3600, 60), (7200, 120)]) :=
  have hg : List.Chain' (fun (r w : ℤ × ℚ) => w.1 < r.1 → r.2 ≤ w.2)
      [((82800 : ℤ), (0 : ℚ)), (3600, 60), (7200, 120)] := by
    refine List.chain'_cons.mpr ⟨?_, List.chain'_cons.mpr
      ⟨?_, List.chain'_singleton _⟩⟩ <;> intro h <;> norm_num
  ⟨by decide, hg,
    correctedTimes_monotone [((82800 : ℤ), (0 : ℚ)), (3600, 60), (7200, 120)]
      (by decide) hg⟩

/-! ## `decode_rrs` (src/wxprofilers/rrs.py, lines 6-15)

`decode_rrs` calls the external native decoder `rrs_.rrs_decoder` once.
The call is modelled as the list of (argument, argument, argument) triples
passed to the decoder, each argument a character list.  `pathStr` models
`str(Path(outdir))` on a POSIX system: repeated slashes collapse, `'.'`
components and trailing slashes are dropped, `''` becomes `'.'`, and a
leading `'//'` (exactly two slashes) is preserved. -/

/-- Join path components with `'/'`. -/
def joinParts : List (List Char) → List Char
  | [] => []
  | [p] => p
  | p :: ps => p ++ '/' :: joinParts ps

/-- `str(Path(s))` for a POSIX path. -/
def pathStr (s : String) : List Char :=
  let cs := s.data
  let root : List Char :=
    match cs with
    | '/' :: '/' :: '/' :: _ => ['/']
    | '/' :: '/' :: _ => ['/', '/']
    | '/' :: _ => ['/']
    | _ => []
  let parts := (splitChar '/' cs).filter
    (fun p => !(p.isEmpty) && !(p == ['.']))
  if parts.isEmpty then (if root.isEmpty then ['.'] else root)
  else root ++ joinParts parts

/-- `decode_rrs(bufrin, outputs, outdir)`: the calls made to the native
decoder.  Line 14 computes `out = str(Path(outdir)) + '/'` and line 15
passes `(bufrin, outputs, out)`. -/
def decode_rrs (bufrin outputs outdir : String) :
    List (List Char × List Char × List Char) :=
  [(bufrin.data, outputs.data, pathStr outdir ++ ['/'])]

/-- Counterexample to C7: with `outdir = ''` (the declared default), the
third argument reaching the decoder is `'./'`, not the unmodified `''`. -/
theorem decode_rrs_outdir_modified :
    decode_rrs "in.bufr" "all" "" ≠
      [("in.bufr".data, "all".data, "".data)] := by decide

/-- Amended C7: `decode_rrs` invokes the decoder exactly once with exactly
three arguments; the input BUFR path and the requested outputs are passed
unmodified, while the output directory is normalised (`str(Path(outdir))`)
and receives a trailing `'/'`. -/
theorem decode_rrs_forwards (bufrin outputs outdir : String) :
    (decode_rrs bufrin outputs outdir).length = 1 ∧
    ∀ c ∈ decode_rrs bufrin outputs outdir,
      c.1 = bufrin.data ∧ c.2.1 = outputs.data ∧
      c.2.2 = pathStr outdir ++ ['/'] := by
  refine ⟨rfl, ?_⟩
  intro c hc
  simp only [decode_rrs, List.mem_singleton] at hc
  subst hc
  exact ⟨rfl, rfl, rfl⟩

/-! ## `lidar_from_csv` (src/misc.py, lines 12-57): the RWS pivot

A row of the radial-wind CSV contributes its `Timestamp` (as an abstract
ordered key, modelled by `ℤ` - `pd.to_datetime` relabels the index but
does not reorder it), its `Range [m]` and its `RWS [m/s]` value.
`csv.pivot(index='Timestamp', columns='Range [m]')` produces a grid over
the sorted distinct timestamps and sorted distinct ranges whose entry at
`(t, r)` is the value of the unique row with that key, `NaN` (here `none`)
when no such row exists; pandas raises on duplicate `(t, r)` keys. -/

structure LidarRow where
  time : ℤ
  rng : ℚ
  rws : ℚ
deriving DecidableEq

/-- Insert into a sorted list. -/
def insSorted {α : Type} [LinearOrder α] (x : α) : List α → List α
  | [] => [x]
  | y :: ys => if x ≤ y then x :: y :: ys else y :: insSorted x ys

/-- The sorted list of the distinct elements of `l` (what a pandas pivot
uses as axis labels). -/
def sortedDedup {α : Type} [LinearOrder α] (l : List α) : List α :=
  l.dedup.foldr insSorted []

/-- Executable duplicate test for the pivot keys. -/
def nodupB {α : Type} [DecidableEq α] : List α → Bool
  | [] => true
  | k :: ks => !(ks.contains k) && nodupB ks

/-- The `(Timestamp, Range)` key of each row. -/
def lidarKeys (rows : List LidarRow) : List (ℤ × ℚ) :=
  rows.map (fun r => (r.time, r.rng))

/-- The value of the unique row with the given key, if any. -/
def rwsLookup (rows : List LidarRow) (t : ℤ) (r : ℚ) : Option ℚ :=
  (rows.find? (fun w => decide (w.time = t ∧ w.rng = r))).map (fun w => w.rws)

/-- The `Time`/`Range`/`RWS` portion of `lidar_from_csv`: the pivot of
lines 18 and 54-57.  `none` models the pandas duplicate-index error. -/
def lidar_from_csv (rows : List LidarRow) :
    Option (List ℤ × List ℚ × List (List (Option ℚ))) :=
  if nodupB (lidarKeys rows) then
    let ts := sortedDedup (rows.map (fun r => r.time))
    let rs := sortedDedup (rows.map (fun r => r.rng))
    some (ts, rs, ts.map (fun t => rs.map (fun r => rwsLookup rows t r)))
  else none

/-- Claim-side description of the pivot: the Time coordinate consists of
the distinct CSV timestamps, the Range coordinate of the distinct CSV
ranges, and the grid holds each row's RWS value at its row's
(Time, Range) position. -/
def LidarPivotSpec (rows : List LidarRow) (ts : List ℤ) (rs : List ℚ)
    (grid : List (List (Option ℚ))) : Prop :=
  ts.toFinset = (rows.map (fun r => r.time)).toFinset ∧ ts.Nodup ∧
  rs.toFinset = (rows.map (fun r => r.rng)).toFinset ∧ rs.Nodup ∧
  grid.length = ts.length ∧ (∀ g ∈ grid, g.length = rs.length) ∧
  ∀ w ∈ rows, ∀ i j : ℕ, ts[i]? = some w.time → rs[j]? = some w.rng →
    (grid[i]?.bind (fun g => g[j]?)) = some (some w.rws)

theorem insSorted_perm {α : Type} [LinearOrder α] (x : α) (l : List α) :
    List.Perm (insSorted x l) (x :: l) := by
  induction l with
  | nil => exact List.Perm.refl _
  | cons y ys ih =>
    unfold insSorted
    split
    · exact List.Perm.refl _
    · exact List.Perm.trans (List.Perm.cons y ih) (List.Perm.swap x y ys)

theorem sortedDedup_perm {α : Type} [LinearOrder α] (l : List α) :
    List.Perm (sortedDedup l) l.dedup := by
  unfold sortedDedup
  induction l.dedup with
  | nil => exact List.Perm.refl _
  | cons x xs ih =>
    exact List.Perm.trans (insSorted_perm x (xs.foldr insSorted []))
      (List.Perm.cons x ih)

theorem sortedDedup_toFinset {α : Type} [LinearOrder α] (l : List α) :
    (sortedDedup l).toFinset = l.toFinset := by
  rw [List.toFinset_eq_of_perm _ _ (sortedDedup_perm l)]
  ext a
  simp [List.mem_toFinset, List.mem_dedup]

theorem sortedDedup_nodup {α : Type} [LinearOrder α] (l : List α) :
    (sortedDedup l).Nodup :=
  ((sortedDedup_perm l).nodup_iff).mpr l.nodup_dedup

theorem nodupB_iff {α : Type} [DecidableEq α] (l : List α) :
    nodupB l = true ↔ l.Nodup := by
  induction l with
  | nil => simp [nodupB]
  | cons k ks ih =>
    simp [nodupB, List.nodup_cons, ih, List.contains_iff_exists_mem_beq]

/-- With pairwise-distinct keys, the lookup of a present row finds exactly
that row's value. -/
theorem rwsLookup_of_mem (rows : List LidarRow)
    (hn : (lidarKeys rows).Nodup) (w : LidarRow) (hw : w ∈ rows) :
    rwsLookup rows w.time w.rng = some w.rws := by
  have hs : (rows.find? (fun v => decide (v.time = w.time ∧ v.rng = w.rng))).isSome := by
    rw [List.find?_isSome]
    exact ⟨w, hw, by simp⟩
  obtain ⟨w2, hw2⟩ := Option.isSome_iff_exists.mp hs
  have hmem := List.mem_of_find?_eq_some hw2
  have hp2 := List.find?_some hw2
  simp only [decide_eq_true_eq] at hp2
  have hkey : (fun r : LidarRow => (r.time, r.rng)) w2 =
      (fun r : LidarRow => (r.time, r.rng)) w := by
    simp [hp2.1, hp2.2]
  have hww : w2 = w := List.inj_on_of_nodup_map hn hmem hw hkey
  unfold rwsLookup
  rw [hw2, hww]
  rfl

/-- C8: for every duplicate-free radial-wind CSV, the pivot's Time and
Range coordinates are the distinct CSV timestamps and ranges, and the RWS
grid holds, at each row's (Time, Range) position, that row's RWS value. -/
theorem lidar_from_csv_pivot (rows : List LidarRow) (ts : List ℤ)
    (rs : List ℚ) (grid : List (List (Option ℚ)))
    (h : lidar_from_csv rows = some (ts, rs, grid)) :
    LidarPivotSpec rows ts rs grid := by
  unfold lidar_from_csv at h
  split at h
  case isFalse => exact absurd h (by simp)
  case isTrue hkeys =>
    have hn : (lidarKeys rows).Nodup := (nodupB_iff _).mp hkeys
    obtain ⟨hts, hrs, hgrid⟩ :
        sortedDedup (rows.map (fun r => r.time)) = ts ∧
        sortedDedup (rows.map (fun r => r.rng)) = rs ∧
        (sortedDedup (rows.map (fun r => r.time))).map
          (fun t => (sortedDedup (rows.map (fun r => r.rng))).map
            (fun r => rwsLookup rows t r)) = grid := by
      have := Option.some_inj.mp h
      exact ⟨congrArg (fun p => p.1) this,
        congrArg (fun p => p.2.1) this, congrArg (fun p => p.2.2) this⟩
    subst hts
    subst hrs
    subst hgrid
    refine ⟨sortedDedup_toFinset _, sortedDedup_nodup _,
      sortedDedup_toFinset _, sortedDedup_nodup _, by simp, by
        intro g hg
        obtain ⟨t, _, rfl⟩ := List.mem_map.mp hg
        simp, ?_⟩
    intro w hw i j hi hj
    rw [List.getElem?_map, hi]
    simp only [Option.map_some', Option.some_bind]
    rw [List.getElem?_map, hj]
    simp only [Option.map_some']
    rw [rwsLookup_of_mem rows hn w hw]

/-- Witness for C8 on a concrete three-row CSV. -/
theorem lidar_from_csv_pivot_witness :
    lidar_from_csv [⟨1, 10, 5⟩, ⟨1, 20, 6⟩, ⟨2, 10, 7⟩] =
      some ([1, 2], [10, 20],
        [[some 5, some 6], [some 7, none]]) ∧
    LidarPivotSpec [⟨1, 10, 5⟩, ⟨1, 20, 6⟩, ⟨2, 10, 7⟩] [1, 2] [10, 20]
      [[some 5, some 6], [some 7, none]] :=
  ⟨by decide,
    lidar_from_csv_pivot [⟨1, 10, 5⟩, ⟨1, 20, 6⟩, ⟨2, 10, 7⟩] [1, 2] [10, 20]
      [[some 5, some 6], [some 7, none]] (by decide)⟩

/-! ## `mwr_from_csv` (src/misc.py, lines 120-145): per-record-type tables

Line 127 extracts each line's type code with
`int(re.sub(",.*", "", re.sub("^[^,]*,[^,]*,", "", line)))`: for a line
with at least two commas, this is the third comma-separated field; for a
line with fewer commas the first regex does not match, and the code falls
back to the content before the first comma (the leading field).
`lineTypeField` reproduces precisely this behaviour.  Lines 128-145 then,
for each header line matching `^Record` with type code `t`, collect the
lines whose type code lies in `{t+1, t+2, t+3, t+4}` and, when at least
one exists, store the header followed by those lines under key `t`
(`csvs[str(types[n])]`, later headers with the same key overwriting
earlier ones, as in a Python dict).  `none` models the crashes: `int()`
failing on some line, or `np.nditer` on an empty header array. -/

/-- The field the two `re.sub` calls of line 127 leave behind. -/
def lineTypeField (line : List Char) : List Char :=
  match splitChar ',' line with
  | _ :: _ :: t :: _ => t
  | f :: _ => f
  | [] => []

/-- The type code of a line: `int(...)` of the extracted field. -/
def lineType (line : List Char) : Option ℤ :=
  parsePyInt (lineTypeField line)

/-- Claim-side type code: the integer in the third comma-separated field. -/
def specLineType (line : List Char) : Option ℤ :=
  ((splitChar ',' line)[2]?).bind parsePyInt

/-- `re.search("^Record", line)` (line 128). -/
def isRecordHeader (line : List Char) : Bool :=
  ("Record".data).isPrefixOf line

/-- `types[m] in acceptable_types` with `acceptable_types = t + [1,2,3,4]`
(lines 133-135). -/
def mwrAccept (t k : ℤ) : Bool :=
  (k == t + 1) || (k == t + 2) || (k == t + 3) || (k == t + 4)

/-- Python dict assignment `csvs[str(t)] = df`: a later binding of the same
key overwrites the earlier one. -/
def tablesInsert (tbls : List (ℤ × List (List Char))) (t : ℤ)
    (v : List (List Char)) : List (ℤ × List (List Char)) :=
  (tbls.filter (fun p => !(p.1 == t))) ++ [(t, v)]

/-- The `for n in np.nditer(headers)` loop of lines 132-145 over lines
tagged with their type codes: for each header line, the matching lines in
file order, prepended with the header itself, stored when nonempty. -/
def mwrTablesCore (tl : List (List Char × ℤ)) :
    List (ℤ × List (List Char)) :=
  (tl.filter (fun p => isRecordHeader p.1)).foldl
    (fun acc p =>
      let matching := ((tl.filter (fun q => mwrAccept p.2 q.2)).map Prod.fst)
      if matching.isEmpty then acc
      else tablesInsert acc p.2 (p.1 :: matching)) []

/-- Lines 126-145 parametrised by the type-code classifier. -/
def mwrTablesWith (ty : List Char → Option ℤ) (lines : List (List Char)) :
    Option (List (ℤ × List (List Char))) :=
  match lines.mapM ty with
  | none => none
  | some tys =>
    if (lines.filter isRecordHeader).isEmpty then none
    else some (mwrTablesCore (lines.zip tys))

/-- The table-splitting step of `mwr_from_csv` as implemented. -/
def mwr_from_csv_tables (lines : List (List Char)) :
    Option (List (ℤ × List (List Char))) :=
  mwrTablesWith lineType lines

/-- The table-splitting step as the claim describes it: classification by
the third comma-separated field. -/
def mwrSpecTables (lines : List (List Char)) :
    Option (List (ℤ × List (List Char))) :=
  mwrTablesWith specLineType lines

/-- Counterexample to C9: on a file containing the line `'101,a'` (fewer
than two commas), the code classifies it by its first field (101) and files
it into the table of header `'Record Type,foo,100'`, while classification
by the third comma-separated field would leave that header's table empty
(hence absent). -/
theorem mwr_tables_counterexample :
    mwr_from_csv_tables ["Record Type,foo,100".data, "101,a".data] ≠
      mwrSpecTables ["Record Type,foo,100".data, "101,a".data] := by decide

/-- `mapM` only depends on the values of the function on the list. -/
theorem mapM_option_congr {α β : Type} (f g : α → Option β) :
    ∀ l : List α, (∀ a ∈ l, f a = g a) → l.mapM f = l.mapM g := by
  intro l
  induction l with
  | nil => intro _; rfl
  | cons a as ih =>
    intro h
    rw [List.mapM_cons, List.mapM_cons, h a (by simp), ih
      (fun b hb => h b (by simp [hb]))]

/-- On a line with at least three comma-separated fields the implemented
classifier reads exactly the third field. -/
theorem lineType_eq_spec (line : List Char)
    (h : 3 ≤ (splitChar ',' line).length) :
    lineType line = specLineType line := by
  unfold lineType specLineType lineTypeField
  cases hsp : splitChar ',' line with
  | nil => rw [hsp] at h; simp at h
  | cons a rest =>
    cases rest with
    | nil => rw [hsp] at h; simp at h
    | cons b rest2 =>
      cases rest2 with
      | nil => rw [hsp] at h; simp at h
      | cons t rest3 => simp

/-- Amended C9: for every input file in which each line has at least three
comma-separated fields, `mwr_from_csv` classifies each line by the integer
type code in its third comma-separated field, and for each `Record` header
line with type code `t` builds, when at least one matching line exists, the
table consisting of that header followed by exactly the lines whose type
code lies in `{t+1, t+2, t+3, t+4}`, stored under key `t`. -/
theorem mwr_tables_spec (lines : List (List Char))
    (h : ∀ line ∈ lines, 3 ≤ (splitChar ',' line).length) :
    mwr_from_csv_tables lines = mwrSpecTables lines := by
  unfold mwr_from_csv_tables mwrSpecTables mwrTablesWith
  rw [mapM_option_congr lineType specLineType lines
    (fun line hl => lineType_eq_spec line (h line hl))]

/-- Witness for the amended C9 on a concrete well-formed file. -/
theorem mwr_tables_spec_witness :
    (∀ line ∈ ["Record Type,x,100,hdr".data, "a,b,101,p".data,
        "c,d,102,q".data], 3 ≤ (splitChar ',' line).length) ∧
    mwr_from_csv_tables ["Record Type,x,100,hdr".data, "a,b,101,p".data,
        "c,d,102,q".data] =
      mwrSpecTables ["Record Type,x,100,hdr".data, "a,b,101,p".data,
        "c,d,102,q".data] :=
  ⟨by decide,
    mwr_tables_spec ["Record Type,x,100,hdr".data, "a,b,101,p".data,
      "c,d,102,q".data] (by decide)⟩

/-! ## `lidar_from_csv` wind merge (src/misc.py, lines 87-111)

After line 58 renames the `Timestamp` dimension to `Time`, the `Windspeed`
variable has dimensions `(Component, Time, Range)`.  Line 107-109 assign
with the key `dict(Component=c, Range=col_indices, Timestamp=row_indices)`.
xarray's positional assignment maps a dict key to the index tuple
`tuple(key.get(dim, slice(None)) for dim in dims)`: the `Timestamp` entry
matches no dimension and is silently dropped, and the `Time` axis receives
the full slice.  The effective assignment is therefore
`Windspeed[c, :, col_indices] = value`, with the `(W, K)` wind-value block
broadcast over all `T` lidar times - requiring `W = T` or `W = 1` and
raising a shape error otherwise.  `row_indices` (line 99) is computed but
never used. -/

/-- `np.searchsorted(xs, v)` (left insertion) for sorted `xs`. -/
def searchsortedI (xs : List ℤ) (v : ℤ) : ℕ :=
  xs.countP (fun x => decide (x < v))

/-- `np.searchsorted(xs, v)` (left insertion) for sorted `xs`. -/
def searchsortedQ (xs : List ℚ) (v : ℚ) : ℕ :=
  xs.countP (fun x => decide (x < v))

/-- `np.full((T, R), np.nan)` for one component. -/
def nanGrid (T R : ℕ) : List (List PFloat) :=
  List.replicate T (List.replicate R PFloat.nan)

/-- The negated wind values (`-wind_small[...]`). -/
def negGrid (G : List (List ℚ)) : List (List PFloat) :=
  G.map (fun row => row.map (fun v => PFloat.num (-v)))

/-- Set column `r` of the grid to `vals` (one value per row). -/
def setColumn (grid : List (List PFloat)) (r : ℕ) (vals : List PFloat) :
    List (List PFloat) :=
  List.zipWith (fun row v => row.set r v) grid vals

/-- NumPy assignment `grid[:, colIdx] = B`: column `colIdx[j]` of the grid
receives column `j` of `B`, for each `j` in order. -/
def assignColumns (grid : List (List PFloat)) (colIdx : List ℕ)
    (B : List (List PFloat)) : List (List PFloat) :=
  (List.range colIdx.length).foldl
    (fun g j => setColumn g (colIdx.getD j 0)
      (B.map (fun row => row.getD j PFloat.nan))) grid

/-- NumPy broadcasting of a `(W, K)` value block against a `(T, K)` target:
the rows are used as-is when `W = T`, replicated when `W = 1`, and a
`ValueError` is raised otherwise. -/
def npBroadcastRows (T : ℕ) (V : List (List PFloat)) :
    Option (List (List PFloat)) :=
  if V.length = T then some V
  else if V.length = 1 then some (List.replicate T V.headI)
  else none

set_option linter.unusedVariables false in
/-- One component of the `Windspeed` assignment as the code executes it:
`row_indices` is computed (line 99) but dropped by the dict-key lookup, so
the value block is broadcast over the full `Time` axis and only
`col_indices` steers the placement. -/
def windMergeComp (lidarTimes : List ℤ) (lidarRanges : List ℚ)
    (windTimes : List ℤ) (windRanges : List ℚ) (G : List (List ℚ)) :
    Option (List (List PFloat)) :=
  let rowIdx := windTimes.map (searchsortedI lidarTimes)
  let colIdx := windRanges.map (searchsortedQ lidarRanges)
  match npBroadcastRows lidarTimes.length (negGrid G) with
  | none => none
  | some B => some (assignColumns (nanGrid lidarTimes.length
      lidarRanges.length) colIdx B)

/-- Set the single entry `(t, r)` of the grid. -/
def setEntry (grid : List (List PFloat)) (t r : ℕ) (v : PFloat) :
    List (List PFloat) :=
  grid.set t ((grid.getD t []).set r v)

/-- One component of the `Windspeed` assignment as C6 describes it: each
negated wind value is placed at the `(Time, Range)` position located by
searchsorted row and column indices, every other position staying NaN. -/
def windMergeCompSpec (lidarTimes : List ℤ) (lidarRanges : List ℚ)
    (windTimes : List ℤ) (windRanges : List ℚ) (G : List (List ℚ)) :
    List (List PFloat) :=
  let rowIdx := windTimes.map (searchsortedI lidarTimes)
  let colIdx := windRanges.map (searchsortedQ lidarRanges)
  let Gn := negGrid G
  (List.range windTimes.length).foldl (fun g i =>
    (List.range windRanges.length).foldl (fun g2 j =>
      setEntry g2 (rowIdx.getD i 0) (colIdx.getD j 0)
        ((Gn.getD i []).getD j PFloat.nan)) g)
    (nanGrid lidarTimes.length lidarRanges.length)

/-- C6 failing input: lidar times `[0, 100]`, lidar range `[50]`, and a
wind CSV with the single timestamp `100` and value `7`.  The code
broadcasts `-7` into both Time rows (the searchsorted row index 1 is
ignored), where the claim prescribes `-7` only at row 1 with row 0 left
NaN; with two wind timestamps against three lidar times the assignment
raises instead of placing anything. -/
theorem windspeed_rows_ignored :
    windMergeComp [0, 100] [50] [100] [50] [[7]] =
      some [[PFloat.num (-7)], [PFloat.num (-7)]] ∧
    windMergeCompSpec [0, 100] [50] [100] [50] [[7]] =
      [[PFloat.nan], [PFloat.num (-7)]] ∧
    windMergeComp [0, 100] [50] [100] [50] [[7]] ≠
      some (windMergeCompSpec [0, 100] [50] [100] [50] [[7]]) ∧
    windMergeComp [0, 100, 200] [50] [100, 200] [50] [[7], [8]] = none := by
  exact ⟨by decide, by decide, by decide, by decide⟩
